import Mathlib

/-!
Verification development for the MC_Anamorphosis image-to-placement pipeline.

The Python sources are shallowly embedded:
  * `image_processing.py` — pure arithmetic is modelled over `ℚ` (the claims
    are algebraic properties of the formulas, independent of rounding of the
    binary floating point format), except the camera-frame construction,
    which involves trigonometry and is modelled over `ℝ`.
  * `send_commands.py` — the connection pool and the dispatch layer are
    modelled as explicit state passing; the scheduling nondeterminism of the
    thread pool is modelled by quantifying over the execution order.
Integer pixel channels and palette colors are `ℕ` / `ℤ`; machine strings
are Lean `String`s; fallible operations return `Option` / `Except`.
-/

namespace MCA

/-! ## Rational 3-vectors (helpers `dot`, `cross`, `norm`, `normalize` are
modelled over `ℝ` below where trigonometry demands it; the projection
arithmetic of the main pixel loop is over `ℚ`). -/

/-- A 3-component rational vector, embedding the Python tuples used by
`process_image_depthmap_and_get_commands`. -/
structure QVec where
  x : ℚ
  y : ℚ
  z : ℚ
deriving DecidableEq, Repr

/-- Componentwise sum of two rational vectors. -/
def QVec.add (u v : QVec) : QVec := ⟨u.x + v.x, u.y + v.y, u.z + v.z⟩

/-- Scalar multiple of a rational vector. -/
def QVec.smul (a : ℚ) (v : QVec) : QVec := ⟨a * v.x, a * v.y, a * v.z⟩

/-- `dot`, from `image_processing.py` (here on rational vectors):
`u[0]*v[0] + u[1]*v[1] + u[2]*v[2]`. -/
def dotQ (u v : QVec) : ℚ := u.x * v.x + u.y * v.y + u.z * v.z

/-- Python 3 `int(round(x))` on a real value: round half to even.
On a rational `q`, take the floor `f`; if the fractional part is below
one half round down, above one half round up, and at exactly one half
pick the even neighbour. -/
def pyRound (q : ℚ) : ℤ :=
  let f : ℤ := ⌊q⌋
  let r : ℚ := q - (f : ℚ)
  if r < 1/2 then f
  else if 1/2 < r then f + 1
  else if f % 2 = 0 then f else f + 1

/-- An integer lattice coordinate, the target of rounding. -/
structure ZVec where
  x : ℤ
  y : ℤ
  z : ℤ
deriving DecidableEq, Repr

/-- Round each component with Python `int(round(.))`, as done at command
emission time in `process_image_depthmap_and_get_commands`. -/
def roundPos (p : QVec) : ZVec := ⟨pyRound p.x, pyRound p.y, pyRound p.z⟩

/-! ## Palette quantization: `find_closest_block` -/

/-- A palette entry: block identifier together with its RGB triple.
Python dicts iterate in insertion order, so the palette is a list. -/
abbrev PaletteEntry := String × ℤ × ℤ × ℤ

/-- Squared Euclidean RGB distance `(r-br)**2 + (g-bg)**2 + (b-bb)**2`
from the loop body of `find_closest_block`. -/
def sqDist (r g b : ℤ) (c : ℤ × ℤ × ℤ) : ℤ :=
  (r - c.1) ^ 2 + (g - c.2.1) ^ 2 + (b - c.2.2) ^ 2

/-- The scanning loop of `find_closest_block`: the accumulator `best`
holds `closest_block` and `closest_distance_sq`; `none` embeds the
initial state `closest_block = None, closest_distance_sq = inf` (a finite
distance always beats infinity, so the first entry always loads). The
update fires exactly on `dist_sq < closest_distance_sq`. -/
def fcbLoop (r g b : ℤ) (best : Option (String × ℤ)) :
    List PaletteEntry → Option (String × ℤ)
  | [] => best
  | e :: rest =>
    match best with
    | none => fcbLoop r g b (some (e.1, sqDist r g b e.2)) rest
    | some (id0, d0) =>
      if sqDist r g b e.2 < d0 then
        fcbLoop r g b (some (e.1, sqDist r g b e.2)) rest
      else
        fcbLoop r g b (some (id0, d0)) rest

/-- `find_closest_block(r, g, b, block_rgb_map)`: linear scan for the
palette entry of minimal squared distance; returns `None` on an empty
palette. -/
def find_closest_block (r g b : ℤ) (palette : List PaletteEntry) :
    Option String :=
  (fcbLoop r g b none palette).map (fun p => p.1)

/-! ## Depth mapping -/

/-- The brightness-to-distance map of `get_depth_map` and of the inline
recomputation in `process_image_depthmap_and_get_commands`:
`depth = max_distance - normalized * (max_distance - min_distance)`. -/
def depthOf (min_distance max_distance b : ℚ) : ℚ :=
  max_distance - b * (max_distance - min_distance)

/-! ## The per-pixel loop body of `process_image_depthmap_and_get_commands` -/

/-- `scale_factor = distance / base_distance` (with
`base_distance = max_distance`). -/
def scaleFactor (distance base_distance : ℚ) : ℚ := distance / base_distance

/-- `norm_offset_right = -((col - center_x) / (width / 2)) * (output_width / 2) * scale_factor`
with `center_x = width / 2.0` — the deliberate left/right inversion. -/
def normOffsetRight (col width output_width : ℕ) (sf : ℚ) : ℚ :=
  -(((col : ℚ) - (width : ℚ) / 2) / ((width : ℚ) / 2)) * ((output_width : ℚ) / 2) * sf

/-- `norm_offset_up = ((center_y - row) / (height / 2)) * (output_height / 2) * scale_factor`
with `center_y = height / 2.0`. -/
def normOffsetUp (row height output_height : ℕ) (sf : ℚ) : ℚ :=
  (((height : ℚ) / 2 - (row : ℚ)) / ((height : ℚ) / 2)) * ((output_height : ℚ) / 2) * sf

/-- The unrounded world position of a pixel:
`eye + look * distance + right * norm_offset_right + true_up * norm_offset_up`,
componentwise exactly as in the source. -/
def blockPos (eye look right trueUp : QVec) (distance offR offU : ℚ) : QVec :=
  ⟨eye.x + look.x * distance + right.x * offR + trueUp.x * offU,
   eye.y + look.y * distance + right.y * offR + trueUp.y * offU,
   eye.z + look.z * distance + right.z * offR + trueUp.z * offU⟩

/-- `far_threshold = min_distance + 0.6 * (max_distance - min_distance)`. -/
def farThreshold (min_distance max_distance : ℚ) : ℚ :=
  min_distance + (6/10) * (max_distance - min_distance)

/-- A placement command: the rounded integer coordinate and the block
identifier (the payload of the `setblock {bx} {by} {bz} {block_id}` string). -/
abbrev Command := ZVec × String

/-- The block identifier chosen for a pixel: the quantizer's answer, with
the source's `if block_id is None: block_id = "minecraft:stone"` fallback. -/
def blockIdOf (palette : List PaletteEntry) (r g b : ℕ) : String :=
  match find_closest_block (r : ℤ) (g : ℤ) (b : ℤ) palette with
  | none => "minecraft:stone"
  | some id0 => id0

/-- One iteration of the pixel loop of
`process_image_depthmap_and_get_commands`, for the pixel at `(col, row)`
with RGBA channels `pixel` and depth-map value `distance`. Returns the
commands emitted for that pixel (`[]` when the alpha test skips it). The
camera data `eye`, `look`, `right`, `trueUp` and the depth are the values
the surrounding function computed before the loop. -/
def processPixel (palette : List PaletteEntry) (pixel : ℕ × ℕ × ℕ × ℕ)
    (col row width height output_width output_height : ℕ)
    (distance min_distance max_distance pixel_scale : ℚ)
    (eye look right trueUp : QVec) : List Command :=
  if pixel.2.2.2 < 128 then []
  else
    let block_id := blockIdOf palette pixel.1 pixel.2.1 pixel.2.2.1
    let sf := scaleFactor distance max_distance
    let offR := normOffsetRight col width output_width sf
    let offU := normOffsetUp row height output_height sf
    let pos := blockPos eye look right trueUp distance offR offU
    if farThreshold min_distance max_distance ≤ distance then
      let dr := QVec.smul (pixel_scale * sf) right
      let du := QVec.smul (pixel_scale * sf) trueUp
      [(roundPos pos, block_id),
       (roundPos (pos.add dr), block_id),
       (roundPos (pos.add du), block_id),
       (roundPos ((pos.add dr).add du), block_id)]
    else
      [(roundPos pos, block_id)]

/-- Componentwise difference of two rational vectors. -/
def QVec.sub (u v : QVec) : QVec := ⟨u.x - v.x, u.y - v.y, u.z - v.z⟩

/-! ## Characterization of the `find_closest_block` scan -/

/-- Loop invariant of the `find_closest_block` scan: starting from an
accumulated best `acc`, either no strict improvement happens and `acc`
survives (every remaining entry is at distance at least `acc.2`), or the
result is the first entry of the remaining list attaining the minimum
distance, that distance beats `acc.2`, and every earlier entry is
strictly worse. -/
lemma fcbLoop_char (r g b : ℤ) :
    ∀ (l : List PaletteEntry) (acc : String × ℤ),
      (fcbLoop r g b (some acc) l = some acc ∧
        ∀ e ∈ l, acc.2 ≤ sqDist r g b e.2) ∨
      (∃ (i : ℕ) (hi : i < l.length),
        fcbLoop r g b (some acc) l =
          some ((l.get ⟨i, hi⟩).1, sqDist r g b (l.get ⟨i, hi⟩).2) ∧
        sqDist r g b (l.get ⟨i, hi⟩).2 < acc.2 ∧
        (∀ (j : ℕ) (hj : j < l.length),
          sqDist r g b (l.get ⟨i, hi⟩).2 ≤ sqDist r g b (l.get ⟨j, hj⟩).2) ∧
        (∀ (j : ℕ) (hj : j < l.length), j < i →
          sqDist r g b (l.get ⟨i, hi⟩).2 < sqDist r g b (l.get ⟨j, hj⟩).2)) := by
  intro l
  induction l with
  | nil =>
    intro acc
    left
    exact ⟨rfl, by intro e he; cases he⟩
  | cons e rest ih =>
    intro acc
    by_cases hd : sqDist r g b e.2 < acc.2
    · have hstep : fcbLoop r g b (some acc) (e :: rest) =
          fcbLoop r g b (some (e.1, sqDist r g b e.2)) rest := by
        simp only [fcbLoop, if_pos hd]
      rcases ih (e.1, sqDist r g b e.2) with ⟨heq, hall⟩ | ⟨i, hi, heq, hlt, hmin, hfirst⟩
      · right
        refine ⟨0, by simp, ?_, hd, ?_, ?_⟩
        · rw [hstep, heq]
          rfl
        · intro j hj
          cases j with
          | zero => exact le_refl _
          | succ k =>
            have hk : k < rest.length := by simpa using hj
            have hmem : rest.get ⟨k, hk⟩ ∈ rest := List.get_mem _ _ _
            simpa using hall _ hmem
        · intro j hj hj0
          exact absurd hj0 (Nat.not_lt_zero j)
      · right
        have hi' : i + 1 < (e :: rest).length := by simpa using Nat.succ_lt_succ hi
        refine ⟨i + 1, hi', ?_, ?_, ?_, ?_⟩
        · rw [hstep]; simpa using heq
        · calc sqDist r g b ((e :: rest).get ⟨i + 1, hi'⟩).2
              = sqDist r g b (rest.get ⟨i, hi⟩).2 := by simp
            _ < sqDist r g b e.2 := hlt
            _ < acc.2 := hd
        · intro j hj
          cases j with
          | zero =>
            simpa using le_of_lt hlt
          | succ k =>
            have hk : k < rest.length := by simpa using hj
            simpa using hmin k hk
        · intro j hj hji
          cases j with
          | zero => simpa using hlt
          | succ k =>
            have hk : k < rest.length := by simpa using hj
            have hki : k < i := by omega
            simpa using hfirst k hk hki
    · have hstep : fcbLoop r g b (some acc) (e :: rest) =
          fcbLoop r g b (some acc) rest := by
        simp only [fcbLoop, if_neg hd]
      have hde : acc.2 ≤ sqDist r g b e.2 := le_of_not_lt hd
      rcases ih acc with ⟨heq, hall⟩ | ⟨i, hi, heq, hlt, hmin, hfirst⟩
      · left
        refine ⟨by rw [hstep, heq], ?_⟩
        intro e' he'
        rcases List.mem_cons.mp he' with h | h
        · rw [h]; exact hde
        · exact hall _ h
      · right
        have hi' : i + 1 < (e :: rest).length := by simpa using Nat.succ_lt_succ hi
        refine ⟨i + 1, hi', ?_, ?_, ?_, ?_⟩
        · rw [hstep]; simpa using heq
        · simpa using hlt
        · intro j hj
          cases j with
          | zero =>
            have : sqDist r g b (rest.get ⟨i, hi⟩).2 < sqDist r g b e.2 :=
              lt_of_lt_of_le hlt hde
            simpa using le_of_lt this
          | succ k =>
            have hk : k < rest.length := by simpa using hj
            simpa using hmin k hk
        · intro j hj hji
          cases j with
          | zero => simpa using lt_of_lt_of_le hlt hde
          | succ k =>
            have hk : k < rest.length := by simpa using hj
            have hki : k < i := by omega
            simpa using hfirst k hk hki

/-- On a non-empty palette the scan returns exactly the first entry (in
palette order) attaining the minimal squared distance. -/
lemma find_closest_block_spec (r g b : ℤ) (l : List PaletteEntry) (h : l ≠ []) :
    ∃ (i : ℕ) (hi : i < l.length),
      find_closest_block r g b l = some (l.get ⟨i, hi⟩).1 ∧
      (∀ (j : ℕ) (hj : j < l.length),
        sqDist r g b (l.get ⟨i, hi⟩).2 ≤ sqDist r g b (l.get ⟨j, hj⟩).2) ∧
      (∀ (j : ℕ) (hj : j < l.length), j < i →
        sqDist r g b (l.get ⟨i, hi⟩).2 < sqDist r g b (l.get ⟨j, hj⟩).2) := by
  cases l with
  | nil => exact absurd rfl h
  | cons e rest =>
    have hstep : fcbLoop r g b none (e :: rest) =
        fcbLoop r g b (some (e.1, sqDist r g b e.2)) rest := by
      simp only [fcbLoop]
    rcases fcbLoop_char r g b rest (e.1, sqDist r g b e.2) with
      ⟨heq, hall⟩ | ⟨i, hi, heq, hlt, hmin, hfirst⟩
    · refine ⟨0, by simp, ?_, ?_, ?_⟩
      · unfold find_closest_block
        rw [hstep, heq]
        rfl
      · intro j hj
        cases j with
        | zero => exact le_refl _
        | succ k =>
          have hk : k < rest.length := by simpa using hj
          have hmem : rest.get ⟨k, hk⟩ ∈ rest := List.get_mem _ _ _
          simpa using hall _ hmem
      · intro j hj hj0
        exact absurd hj0 (Nat.not_lt_zero j)
    · have hi' : i + 1 < (e :: rest).length := by simpa using Nat.succ_lt_succ hi
      refine ⟨i + 1, hi', ?_, ?_, ?_⟩
      · unfold find_closest_block
        rw [hstep, heq]
        simp
      · intro j hj
        cases j with
        | zero => simpa using le_of_lt hlt
        | succ k =>
          have hk : k < rest.length := by simpa using hj
          simpa using hmin k hk
      · intro j hj hji
        cases j with
        | zero => simpa using hlt
        | succ k =>
          have hk : k < rest.length := by simpa using hj
          have hki : k < i := by omega
          simpa using hfirst k hk hki

/-! ## Claim theorems: quantizer, depth map, alpha filter -/

/-- C4: for every non-empty palette and every RGB triple,
`find_closest_block` returns the identifier of the first palette entry
(in iteration order) attaining the minimum squared Euclidean distance:
the returned entry's distance is a global minimum and every entry before
it is strictly worse. -/
theorem C4_first_min_quantizer (r g b : ℤ) (l : List PaletteEntry) (h : l ≠ []) :
    ∃ (i : ℕ) (hi : i < l.length),
      find_closest_block r g b l = some (l.get ⟨i, hi⟩).1 ∧
      (∀ (j : ℕ) (hj : j < l.length),
        sqDist r g b (l.get ⟨i, hi⟩).2 ≤ sqDist r g b (l.get ⟨j, hj⟩).2) ∧
      (∀ (j : ℕ) (hj : j < l.length), j < i →
        sqDist r g b (l.get ⟨i, hi⟩).2 < sqDist r g b (l.get ⟨j, hj⟩).2) :=
  find_closest_block_spec r g b l h

/-- C4 witness: on the palette `[a ↦ (10,0,0), b ↦ (0,0,0), c ↦ (10,0,0)]`
and the query `(5,0,0)` all three entries are equidistant (25), and the
first one, `a`, wins. -/
theorem C4_first_min_quantizer_witness :
    ∃ (i : ℕ) (hi : i < ([("a", 10, 0, 0), ("b", 0, 0, 0), ("c", 10, 0, 0)] :
        List PaletteEntry).length),
      find_closest_block 5 0 0 [("a", 10, 0, 0), ("b", 0, 0, 0), ("c", 10, 0, 0)] =
        some (([("a", 10, 0, 0), ("b", 0, 0, 0), ("c", 10, 0, 0)] :
          List PaletteEntry).get ⟨i, hi⟩).1 ∧
      (∀ (j : ℕ) (hj : j < ([("a", 10, 0, 0), ("b", 0, 0, 0), ("c", 10, 0, 0)] :
          List PaletteEntry).length),
        sqDist 5 0 0 (([("a", 10, 0, 0), ("b", 0, 0, 0), ("c", 10, 0, 0)] :
          List PaletteEntry).get ⟨i, hi⟩).2 ≤
        sqDist 5 0 0 (([("a", 10, 0, 0), ("b", 0, 0, 0), ("c", 10, 0, 0)] :
          List PaletteEntry).get ⟨j, hj⟩).2) ∧
      (∀ (j : ℕ) (hj : j < ([("a", 10, 0, 0), ("b", 0, 0, 0), ("c", 10, 0, 0)] :
          List PaletteEntry).length), j < i →
        sqDist 5 0 0 (([("a", 10, 0, 0), ("b", 0, 0, 0), ("c", 10, 0, 0)] :
          List PaletteEntry).get ⟨i, hi⟩).2 <
        sqDist 5 0 0 (([("a", 10, 0, 0), ("b", 0, 0, 0), ("c", 10, 0, 0)] :
          List PaletteEntry).get ⟨j, hj⟩).2) :=
  C4_first_min_quantizer 5 0 0 [("a", 10, 0, 0), ("b", 0, 0, 0), ("c", 10, 0, 0)]
    (by decide)

/-- C2 counterexample: with an empty palette the quantizer returns `none`
and the pixel loop emits a command anyway, silently substituting
`"minecraft:stone"`; nothing fails with a configuration error. -/
theorem C2_counterexample :
    find_closest_block 0 0 0 [] = none ∧
    processPixel [] (0, 0, 0, 255) 0 0 2 2 2 2 60 60 180 1
      ⟨0, 0, 0⟩ ⟨0, 0, 1⟩ ⟨1, 0, 0⟩ ⟨0, 1, 0⟩ =
      [(⟨0, 0, 60⟩, "minecraft:stone")] := by
  constructor
  · rfl
  · norm_num [processPixel, blockIdOf, find_closest_block, fcbLoop, scaleFactor,
      normOffsetRight, normOffsetUp, blockPos, farThreshold, roundPos, pyRound,
      QVec.smul, QVec.add]

/-- C2 (amended): on an empty palette `find_closest_block` returns `none`
and the pixel loop silently substitutes the default identifier
`"minecraft:stone"` instead of failing; on a non-empty palette the
quantizer returns the identifier of some palette entry, so the fallback
path is never taken. -/
theorem C2_empty_palette_fallback (r g b : ℤ) (l : List PaletteEntry) (h : l ≠ [])
    (pixel : ℕ × ℕ × ℕ × ℕ) (col row w ht ow oh : ℕ) (d minD maxD ps : ℚ)
    (eye look right up : QVec) (ha : 128 ≤ pixel.2.2.2) :
    find_closest_block r g b [] = none ∧
    (∃ e ∈ l, find_closest_block r g b l = some e.1) ∧
    (∀ c ∈ processPixel [] pixel col row w ht ow oh d minD maxD ps eye look right up,
      c.2 = "minecraft:stone") := by
  refine ⟨rfl, ?_, ?_⟩
  · obtain ⟨i, hi, heq, -, -⟩ := find_closest_block_spec r g b l h
    exact ⟨l.get ⟨i, hi⟩, List.get_mem _ _ _, heq⟩
  · intro c hc
    have hna : ¬ pixel.2.2.2 < 128 := not_lt.mpr ha
    simp only [processPixel, if_neg hna, blockIdOf, find_closest_block, fcbLoop,
      Option.map_none'] at hc
    by_cases hf : farThreshold minD maxD ≤ d
    · simp only [if_pos hf, List.mem_cons, List.not_mem_nil, or_false] at hc
      rcases hc with h1 | h1 | h1 | h1 <;> rw [h1]
    · simp only [if_neg hf, List.mem_cons, List.not_mem_nil, or_false] at hc
      rw [hc]

/-- C2 witness: concrete instantiation of the amended statement at the
one-entry palette `[stone ↦ (1,2,3)]` and a fully opaque black pixel. -/
theorem C2_empty_palette_fallback_witness :
    find_closest_block 0 0 0 [] = none ∧
    (∃ e ∈ ([("stone", 1, 2, 3)] : List PaletteEntry),
      find_closest_block 0 0 0 [("stone", 1, 2, 3)] = some e.1) ∧
    (∀ c ∈ processPixel [] (0, 0, 0, 255) 0 0 2 2 2 2 60 60 180 1
        ⟨0, 0, 0⟩ ⟨0, 0, 1⟩ ⟨1, 0, 0⟩ ⟨0, 1, 0⟩,
      c.2 = "minecraft:stone") :=
  C2_empty_palette_fallback 0 0 0 [("stone", 1, 2, 3)] (by decide)
    (0, 0, 0, 255) 0 0 2 2 2 2 60 60 180 1
    ⟨0, 0, 0⟩ ⟨0, 0, 1⟩ ⟨1, 0, 0⟩ ⟨0, 1, 0⟩ (by decide)

/-- C5: with `min_distance < max_distance` the brightness-to-depth map
`b ↦ max_distance - b * (max_distance - min_distance)` is monotonically
non-increasing on `[0,1]`, stays within `[min_distance, max_distance]`
inclusive, and sends `0` to `max_distance` and `1` to `min_distance`. -/
theorem C5_depth_mapping (minD maxD : ℚ) (h : minD < maxD) :
    (∀ b1 b2 : ℚ, 0 ≤ b1 → b1 ≤ b2 → b2 ≤ 1 →
      depthOf minD maxD b2 ≤ depthOf minD maxD b1) ∧
    (∀ b : ℚ, 0 ≤ b → b ≤ 1 →
      minD ≤ depthOf minD maxD b ∧ depthOf minD maxD b ≤ maxD) ∧
    depthOf minD maxD 0 = maxD ∧
    depthOf minD maxD 1 = minD := by
  refine ⟨?_, ?_, ?_, ?_⟩
  · intro b1 b2 h1 h12 h21
    unfold depthOf
    nlinarith
  · intro b h0 h1
    constructor
    · unfold depthOf; nlinarith
    · unfold depthOf; nlinarith
  · unfold depthOf; ring
  · unfold depthOf; ring

/-- C5 witness: instantiation at the defaults `min_distance = 60`,
`max_distance = 180`. -/
theorem C5_depth_mapping_witness :
    (∀ b1 b2 : ℚ, 0 ≤ b1 → b1 ≤ b2 → b2 ≤ 1 →
      depthOf 60 180 b2 ≤ depthOf 60 180 b1) ∧
    (∀ b : ℚ, 0 ≤ b → b ≤ 1 →
      (60 : ℚ) ≤ depthOf 60 180 b ∧ depthOf 60 180 b ≤ 180) ∧
    depthOf 60 180 0 = 180 ∧
    depthOf 60 180 1 = 60 :=
  C5_depth_mapping 60 180 (by norm_num)

/-- C7: a pixel yields zero commands exactly when its alpha channel is
strictly below 128; equivalently, any pixel with alpha at least 128
yields at least one command (a hard cutoff, not a blend). -/
theorem C7_alpha_cutoff (palette : List PaletteEntry) (pixel : ℕ × ℕ × ℕ × ℕ)
    (col row w ht ow oh : ℕ) (d minD maxD ps : ℚ) (eye look right up : QVec) :
    processPixel palette pixel col row w ht ow oh d minD maxD ps eye look right up = []
      ↔ pixel.2.2.2 < 128 := by
  by_cases ha : pixel.2.2.2 < 128
  · simp [processPixel, ha]
  · simp only [processPixel, if_neg ha]
    by_cases hf : farThreshold minD maxD ≤ d <;> simp [hf, ha]

/-! ## Claim theorems: mirror sign and far-threshold cluster -/

/-- C1 counterexample: under the frame `look=(0,0,1)`, `right=(1,0,0)`
with `depth = 60 > 0` (so `scale_factor = 1/3 > 0`), the pixel column
`col = 0` lies left of center of a width-4 image, yet the projected
position's component along `right` relative to the eye is `+2/3`, not
negative; the emitted command for that pixel sits at `x = 1 > 0`. -/
theorem C1_counterexample :
    ¬ (dotQ ((blockPos ⟨0, 0, 0⟩ ⟨0, 0, 1⟩ ⟨1, 0, 0⟩ ⟨0, 1, 0⟩ 60
        (normOffsetRight 0 4 4 (scaleFactor 60 180))
        (normOffsetUp 2 4 4 (scaleFactor 60 180))).sub ⟨0, 0, 0⟩) ⟨1, 0, 0⟩ < 0) ∧
    dotQ ((blockPos ⟨0, 0, 0⟩ ⟨0, 0, 1⟩ ⟨1, 0, 0⟩ ⟨0, 1, 0⟩ 60
        (normOffsetRight 0 4 4 (scaleFactor 60 180))
        (normOffsetUp 2 4 4 (scaleFactor 60 180))).sub ⟨0, 0, 0⟩) ⟨1, 0, 0⟩ = 2/3 ∧
    processPixel [("s", 0, 0, 0)] (0, 0, 0, 255) 0 2 4 4 4 4 60 60 180 1
      ⟨0, 0, 0⟩ ⟨0, 0, 1⟩ ⟨1, 0, 0⟩ ⟨0, 1, 0⟩ = [(⟨1, 0, 60⟩, "s")] := by
  refine ⟨?_, ?_, ?_⟩
  · norm_num [dotQ, blockPos, QVec.sub, normOffsetRight, normOffsetUp, scaleFactor]
  · norm_num [dotQ, blockPos, QVec.sub, normOffsetRight, normOffsetUp, scaleFactor]
  · norm_num [processPixel, blockIdOf, find_closest_block, fcbLoop, scaleFactor,
      normOffsetRight, normOffsetUp, blockPos, farThreshold, roundPos, pyRound,
      QVec.smul, QVec.add, sqDist]

/-- C1 (amended): under the frame `look=(0,0,1)`, `right=(1,0,0)`,
`true_up=(0,1,0)` with positive depth (so positive scale factor) and
positive dimensions, a pixel column left of image center projects to a
position whose component along `right` relative to the eye is POSITIVE,
and a column right of center to a NEGATIVE one: the deliberate sign flip
sends left-of-image pixels to the observer's right. -/
theorem C1_mirror_sign (col row width height ow oh : ℕ) (d maxD : ℚ) (eye : QVec)
    (hw : 0 < width) (how : 0 < ow) (hd : 0 < d) (hmax : 0 < maxD) :
    (((col : ℚ) < (width : ℚ) / 2 →
      0 < dotQ ((blockPos eye ⟨0, 0, 1⟩ ⟨1, 0, 0⟩ ⟨0, 1, 0⟩ d
          (normOffsetRight col width ow (scaleFactor d maxD))
          (normOffsetUp row height oh (scaleFactor d maxD))).sub eye) ⟨1, 0, 0⟩)) ∧
    (((width : ℚ) / 2 < (col : ℚ) →
      dotQ ((blockPos eye ⟨0, 0, 1⟩ ⟨1, 0, 0⟩ ⟨0, 1, 0⟩ d
          (normOffsetRight col width ow (scaleFactor d maxD))
          (normOffsetUp row height oh (scaleFactor d maxD))).sub eye) ⟨1, 0, 0⟩ < 0)) := by
  have key : dotQ ((blockPos eye ⟨0, 0, 1⟩ ⟨1, 0, 0⟩ ⟨0, 1, 0⟩ d
      (normOffsetRight col width ow (scaleFactor d maxD))
      (normOffsetUp row height oh (scaleFactor d maxD))).sub eye) ⟨1, 0, 0⟩ =
      normOffsetRight col width ow (scaleFactor d maxD) := by
    simp only [dotQ, blockPos, QVec.sub]
    ring
  have hw2 : 0 < (width : ℚ) / 2 := half_pos (by exact_mod_cast hw)
  have how2 : 0 < (ow : ℚ) / 2 := half_pos (by exact_mod_cast how)
  have hsf : 0 < scaleFactor d maxD := div_pos hd hmax
  constructor
  · intro hcol
    rw [key]
    unfold normOffsetRight
    have h1 : (col : ℚ) - (width : ℚ) / 2 < 0 := by linarith
    have h2 : ((col : ℚ) - (width : ℚ) / 2) / ((width : ℚ) / 2) < 0 :=
      div_neg_of_neg_of_pos h1 hw2
    nlinarith [mul_pos (mul_pos (neg_pos.mpr h2) how2) hsf]
  · intro hcol
    rw [key]
    unfold normOffsetRight
    have h1 : 0 < (col : ℚ) - (width : ℚ) / 2 := by linarith
    have h2 : 0 < ((col : ℚ) - (width : ℚ) / 2) / ((width : ℚ) / 2) :=
      div_pos h1 hw2
    nlinarith [mul_pos (mul_pos h2 how2) hsf]

/-- C1 witness: instantiation at `col = 0`, `width = 4`, depth 60 and far
bound 180 (scale factor 1/3). -/
theorem C1_mirror_sign_witness :
    ((((0 : ℕ) : ℚ) < ((4 : ℕ) : ℚ) / 2 →
      0 < dotQ ((blockPos ⟨0, 0, 0⟩ ⟨0, 0, 1⟩ ⟨1, 0, 0⟩ ⟨0, 1, 0⟩ 60
          (normOffsetRight 0 4 4 (scaleFactor 60 180))
          (normOffsetUp 2 4 4 (scaleFactor 60 180))).sub ⟨0, 0, 0⟩) ⟨1, 0, 0⟩)) ∧
    ((((4 : ℕ) : ℚ) / 2 < ((0 : ℕ) : ℚ) →
      dotQ ((blockPos ⟨0, 0, 0⟩ ⟨0, 0, 1⟩ ⟨1, 0, 0⟩ ⟨0, 1, 0⟩ 60
          (normOffsetRight 0 4 4 (scaleFactor 60 180))
          (normOffsetUp 2 4 4 (scaleFactor 60 180))).sub ⟨0, 0, 0⟩) ⟨1, 0, 0⟩ < 0)) :=
  C1_mirror_sign 0 2 4 4 4 4 60 180 ⟨0, 0, 0⟩ (by norm_num) (by norm_num)
    (by norm_num) (by norm_num)

/-- C3: for an opaque pixel (`alpha ≥ 128`), if the depth reaches
`far_threshold = min_distance + 0.6 * (max_distance - min_distance)` the
loop emits exactly the four commands at the base position and its offsets
by one `pixel_scale * scale_factor` step along `right`, along `true_up`,
and along both; below the threshold it emits exactly the single command
at the rounded base position. -/
theorem C3_far_cluster (palette : List PaletteEntry) (pixel : ℕ × ℕ × ℕ × ℕ)
    (col row w ht ow oh : ℕ) (d minD maxD ps : ℚ) (eye look right up : QVec)
    (ha : 128 ≤ pixel.2.2.2) :
    (farThreshold minD maxD ≤ d →
      processPixel palette pixel col row w ht ow oh d minD maxD ps eye look right up =
        [(roundPos (blockPos eye look right up d
            (normOffsetRight col w ow (scaleFactor d maxD))
            (normOffsetUp row ht oh (scaleFactor d maxD))),
          blockIdOf palette pixel.1 pixel.2.1 pixel.2.2.1),
         (roundPos ((blockPos eye look right up d
            (normOffsetRight col w ow (scaleFactor d maxD))
            (normOffsetUp row ht oh (scaleFactor d maxD))).add
              (QVec.smul (ps * scaleFactor d maxD) right)),
          blockIdOf palette pixel.1 pixel.2.1 pixel.2.2.1),
         (roundPos ((blockPos eye look right up d
            (normOffsetRight col w ow (scaleFactor d maxD))
            (normOffsetUp row ht oh (scaleFactor d maxD))).add
              (QVec.smul (ps * scaleFactor d maxD) up)),
          blockIdOf palette pixel.1 pixel.2.1 pixel.2.2.1),
         (roundPos (((blockPos eye look right up d
            (normOffsetRight col w ow (scaleFactor d maxD))
            (normOffsetUp row ht oh (scaleFactor d maxD))).add
              (QVec.smul (ps * scaleFactor d maxD) right)).add
              (QVec.smul (ps * scaleFactor d maxD) up)),
          blockIdOf palette pixel.1 pixel.2.1 pixel.2.2.1)]) ∧
    (d < farThreshold minD maxD →
      processPixel palette pixel col row w ht ow oh d minD maxD ps eye look right up =
        [(roundPos (blockPos eye look right up d
            (normOffsetRight col w ow (scaleFactor d maxD))
            (normOffsetUp row ht oh (scaleFactor d maxD))),
          blockIdOf palette pixel.1 pixel.2.1 pixel.2.2.1)]) := by
  have hna : ¬ pixel.2.2.2 < 128 := not_lt.mpr ha
  constructor
  · intro hf
    simp only [processPixel, if_neg hna, if_pos hf]
  · intro hf
    simp only [processPixel, if_neg hna, if_neg (not_le.mpr hf)]

/-- C3 witness: with `min_distance = 60`, `max_distance = 180` the
threshold is 132; a pixel at depth 132 yields the four-command cluster,
and a pixel at depth 131.99 yields exactly one command. -/
theorem C3_far_cluster_witness :
    processPixel [("stone", 0, 0, 0)] (0, 0, 0, 255) 0 0 2 2 2 2 132 60 180 1
      ⟨0, 0, 0⟩ ⟨0, 0, 1⟩ ⟨1, 0, 0⟩ ⟨0, 1, 0⟩ =
      [(⟨1, 1, 132⟩, "stone"), (⟨1, 1, 132⟩, "stone"),
       (⟨1, 1, 132⟩, "stone"), (⟨1, 1, 132⟩, "stone")] ∧
    processPixel [("stone", 0, 0, 0)] (0, 0, 0, 255) 0 0 2 2 2 2 (13199/100) 60 180 1
      ⟨0, 0, 0⟩ ⟨0, 0, 1⟩ ⟨1, 0, 0⟩ ⟨0, 1, 0⟩ =
      [(⟨1, 1, 132⟩, "stone")] := by
  constructor
  · rw [(C3_far_cluster [("stone", 0, 0, 0)] (0, 0, 0, 255) 0 0 2 2 2 2 132 60 180 1
      ⟨0, 0, 0⟩ ⟨0, 0, 1⟩ ⟨1, 0, 0⟩ ⟨0, 1, 0⟩ (by norm_num)).1
      (by norm_num [farThreshold])]
    norm_num [blockIdOf, find_closest_block, fcbLoop, scaleFactor, normOffsetRight,
      normOffsetUp, blockPos, roundPos, pyRound, QVec.smul, QVec.add, sqDist]
  · rw [(C3_far_cluster [("stone", 0, 0, 0)] (0, 0, 0, 255) 0 0 2 2 2 2 (13199/100) 60 180 1
      ⟨0, 0, 0⟩ ⟨0, 0, 1⟩ ⟨1, 0, 0⟩ ⟨0, 1, 0⟩ (by norm_num)).2
      (by norm_num [farThreshold])]
    norm_num [blockIdOf, find_closest_block, fcbLoop, scaleFactor, normOffsetRight,
      normOffsetUp, blockPos, roundPos, pyRound, QVec.smul, QVec.add, sqDist]

/-! ## Camera frame: the helpers `dot`, `cross`, `norm`, `normalize` and
the look/right/true-up construction of
`process_image_depthmap_and_get_commands`, over `ℝ` (trigonometry). -/

/-- A 3-component real vector (the Python tuples of the camera code). -/
structure RVec where
  x : ℝ
  y : ℝ
  z : ℝ

/-- `dot(u, v) = u[0]*v[0] + u[1]*v[1] + u[2]*v[2]`. -/
def dotR (u v : RVec) : ℝ := u.x * v.x + u.y * v.y + u.z * v.z

/-- `cross(u, v)` from `image_processing.py`. -/
def crossR (u v : RVec) : RVec :=
  ⟨u.y * v.z - u.z * v.y, u.z * v.x - u.x * v.z, u.x * v.y - u.y * v.x⟩

/-- `norm(u) = math.sqrt(dot(u, u))`. -/
noncomputable def normR (u : RVec) : ℝ := Real.sqrt (dotR u u)

/-- `normalize(u)`: the zero vector stays zero, otherwise divide each
component by the norm. -/
noncomputable def normalizeR (u : RVec) : RVec :=
  if normR u = 0 then ⟨0, 0, 0⟩ else ⟨u.x / normR u, u.y / normR u, u.z / normR u⟩

/-- The look vector from yaw and pitch in degrees:
`(-sin(yaw)*cos(pitch), -sin(pitch), cos(yaw)*cos(pitch))` after
`math.radians`. -/
noncomputable def lookVector (yaw pitch : ℝ) : RVec :=
  ⟨-Real.sin (yaw * (Real.pi / 180)) * Real.cos (pitch * (Real.pi / 180)),
   -Real.sin (pitch * (Real.pi / 180)),
   Real.cos (yaw * (Real.pi / 180)) * Real.cos (pitch * (Real.pi / 180))⟩

/-- The up reference: `(0, 1, 0)`, replaced by `(1, 0, 0)` when
`abs(dot(look_vector, approximate_up)) > 0.99`. -/
noncomputable def approximateUp (look : RVec) : RVec :=
  if 0.99 < |dotR look ⟨0, 1, 0⟩| then ⟨1, 0, 0⟩ else ⟨0, 1, 0⟩

/-- `right_vector = normalize(cross(approximate_up, look_vector))`. -/
noncomputable def rightVector (look : RVec) : RVec :=
  normalizeR (crossR (approximateUp look) look)

/-- `true_up_vector = normalize(cross(look_vector, right_vector))`. -/
noncomputable def trueUpVector (look : RVec) : RVec :=
  normalizeR (crossR look (rightVector look))

lemma dotR_self_nonneg (u : RVec) : 0 ≤ dotR u u := by
  unfold dotR
  nlinarith [mul_self_nonneg u.x, mul_self_nonneg u.y, mul_self_nonneg u.z]

lemma dotR_div_div (v w : RVec) (a : ℝ) :
    dotR ⟨v.x / a, v.y / a, v.z / a⟩ ⟨w.x / a, w.y / a, w.z / a⟩ =
      dotR v w / (a * a) := by
  unfold dotR
  dsimp only
  rw [div_mul_div_comm, div_mul_div_comm, div_mul_div_comm, div_add_div_same,
    div_add_div_same]

lemma dotR_div_right (v w : RVec) (a : ℝ) :
    dotR v ⟨w.x / a, w.y / a, w.z / a⟩ = dotR v w / a := by
  unfold dotR
  dsimp only
  rw [← mul_div_assoc, ← mul_div_assoc, ← mul_div_assoc, div_add_div_same,
    div_add_div_same]

lemma normalizeR_of_norm_one (v : RVec) (h : normR v = 1) : normalizeR v = v := by
  unfold normalizeR
  rw [h, if_neg one_ne_zero, div_one, div_one, div_one]

/-- Generic orthonormality of the constructed basis: if the look vector
`L` is unit and the cross product of the chosen up reference `u` with `L`
is non-degenerate, then `L`, `normalize(cross(u, L))` and
`normalize(cross(L, normalize(cross(u, L))))` are exactly orthonormal. -/
lemma frame_orthonormal_aux (L u : RVec) (hL : dotR L L = 1)
    (hc : dotR (crossR u L) (crossR u L) ≠ 0) :
    normR L = 1 ∧
    normR (normalizeR (crossR u L)) = 1 ∧
    normR (normalizeR (crossR L (normalizeR (crossR u L)))) = 1 ∧
    dotR L (normalizeR (crossR u L)) = 0 ∧
    dotR L (normalizeR (crossR L (normalizeR (crossR u L)))) = 0 ∧
    dotR (normalizeR (crossR u L))
      (normalizeR (crossR L (normalizeR (crossR u L)))) = 0 := by
  have hc0 : 0 < dotR (crossR u L) (crossR u L) :=
    lt_of_le_of_ne (dotR_self_nonneg _) (Ne.symm hc)
  have hnpos : 0 < normR (crossR u L) := Real.sqrt_pos.mpr hc0
  have hnne : normR (crossR u L) ≠ 0 := ne_of_gt hnpos
  have hsq : normR (crossR u L) * normR (crossR u L) = dotR (crossR u L) (crossR u L) :=
    Real.mul_self_sqrt (le_of_lt hc0)
  have hRdef : normalizeR (crossR u L) =
      ⟨(crossR u L).x / normR (crossR u L),
       (crossR u L).y / normR (crossR u L),
       (crossR u L).z / normR (crossR u L)⟩ := by
    unfold normalizeR
    rw [if_neg hnne]
  have hRR : dotR (normalizeR (crossR u L)) (normalizeR (crossR u L)) = 1 := by
    rw [hRdef, dotR_div_div, hsq, div_self hc]
  have hLc : dotR L (crossR u L) = 0 := by
    unfold dotR crossR
    dsimp only
    ring
  have hLR : dotR L (normalizeR (crossR u L)) = 0 := by
    rw [hRdef, dotR_div_right, hLc, zero_div]
  have hww : dotR (crossR L (normalizeR (crossR u L))) (crossR L (normalizeR (crossR u L))) =
      dotR L L * dotR (normalizeR (crossR u L)) (normalizeR (crossR u L)) -
        dotR L (normalizeR (crossR u L)) * dotR L (normalizeR (crossR u L)) := by
    unfold dotR crossR
    dsimp only
    ring
  have hww1 : dotR (crossR L (normalizeR (crossR u L)))
      (crossR L (normalizeR (crossR u L))) = 1 := by
    rw [hww, hL, hRR, hLR]
    ring
  have hwn : normR (crossR L (normalizeR (crossR u L))) = 1 := by
    unfold normR
    rw [hww1, Real.sqrt_one]
  have hU : normalizeR (crossR L (normalizeR (crossR u L))) =
      crossR L (normalizeR (crossR u L)) :=
    normalizeR_of_norm_one _ hwn
  refine ⟨?_, ?_, ?_, hLR, ?_, ?_⟩
  · unfold normR
    rw [hL, Real.sqrt_one]
  · unfold normR
    rw [hRR, Real.sqrt_one]
  · rw [hU, hwn]
  · rw [hU]
    unfold dotR crossR
    dsimp only
    ring
  · rw [hU]
    unfold dotR crossR
    dsimp only
    ring

lemma look_unit (yaw pitch : ℝ) :
    dotR (lookVector yaw pitch) (lookVector yaw pitch) = 1 := by
  unfold lookVector dotR
  dsimp only
  linear_combination
    (Real.cos (pitch * (Real.pi / 180))) ^ 2 *
      Real.sin_sq_add_cos_sq (yaw * (Real.pi / 180)) +
    Real.sin_sq_add_cos_sq (pitch * (Real.pi / 180))

/-- C6: for every yaw and pitch (degrees), the basis
`{look, right, true_up}` built by the camera code — including the
degenerate-fallback up-reference branch — is orthonormal: each vector has
unit norm within `1e-6`, and the pairwise dot products vanish within
`1e-6` (in fact everything holds exactly). -/
theorem C6_orthonormal_frame (yaw pitch : ℝ) :
    |normR (lookVector yaw pitch) - 1| ≤ 1e-6 ∧
    |normR (rightVector (lookVector yaw pitch)) - 1| ≤ 1e-6 ∧
    |normR (trueUpVector (lookVector yaw pitch)) - 1| ≤ 1e-6 ∧
    |dotR (lookVector yaw pitch) (rightVector (lookVector yaw pitch))| ≤ 1e-6 ∧
    |dotR (lookVector yaw pitch) (trueUpVector (lookVector yaw pitch))| ≤ 1e-6 ∧
    |dotR (rightVector (lookVector yaw pitch))
      (trueUpVector (lookVector yaw pitch))| ≤ 1e-6 := by
  have hL := look_unit yaw pitch
  by_cases hup : 0.99 < |dotR (lookVector yaw pitch) ⟨0, 1, 0⟩|
  · have hupeq : approximateUp (lookVector yaw pitch) = ⟨1, 0, 0⟩ := by
      unfold approximateUp
      rw [if_pos hup]
    have hy : 0.99 < |(lookVector yaw pitch).y| := by
      have : dotR (lookVector yaw pitch) ⟨0, 1, 0⟩ = (lookVector yaw pitch).y := by
        unfold dotR
        dsimp only
        ring
      rwa [this] at hup
    have hc : dotR (crossR (⟨1, 0, 0⟩ : RVec) (lookVector yaw pitch))
        (crossR (⟨1, 0, 0⟩ : RVec) (lookVector yaw pitch)) ≠ 0 := by
      have hexp : dotR (crossR (⟨1, 0, 0⟩ : RVec) (lookVector yaw pitch))
          (crossR (⟨1, 0, 0⟩ : RVec) (lookVector yaw pitch)) =
          (lookVector yaw pitch).z * (lookVector yaw pitch).z +
          (lookVector yaw pitch).y * (lookVector yaw pitch).y := by
        unfold dotR crossR
        dsimp only
        ring
      rw [hexp]
      nlinarith [sq_abs ((lookVector yaw pitch).y), abs_nonneg ((lookVector yaw pitch).y),
        mul_self_nonneg ((lookVector yaw pitch).z)]
    obtain ⟨h1, h2, h3, h4, h5, h6⟩ :=
      frame_orthonormal_aux (lookVector yaw pitch) ⟨1, 0, 0⟩ hL hc
    simp only [trueUpVector, rightVector, hupeq]
    rw [h1, h2, h3, h4, h5, h6]
    norm_num
  · have hupeq : approximateUp (lookVector yaw pitch) = ⟨0, 1, 0⟩ := by
      unfold approximateUp
      rw [if_neg hup]
    have hy : |(lookVector yaw pitch).y| ≤ 0.99 := by
      have hdy : dotR (lookVector yaw pitch) ⟨0, 1, 0⟩ = (lookVector yaw pitch).y := by
        unfold dotR
        dsimp only
        ring
      rw [hdy] at hup
      exact le_of_not_lt hup
    have hc : dotR (crossR (⟨0, 1, 0⟩ : RVec) (lookVector yaw pitch))
        (crossR (⟨0, 1, 0⟩ : RVec) (lookVector yaw pitch)) ≠ 0 := by
      have hexp : dotR (crossR (⟨0, 1, 0⟩ : RVec) (lookVector yaw pitch))
          (crossR (⟨0, 1, 0⟩ : RVec) (lookVector yaw pitch)) =
          (lookVector yaw pitch).z * (lookVector yaw pitch).z +
          (lookVector yaw pitch).x * (lookVector yaw pitch).x := by
        unfold dotR crossR
        dsimp only
        ring
      rw [hexp]
      have hLexp : (lookVector yaw pitch).x * (lookVector yaw pitch).x +
          (lookVector yaw pitch).y * (lookVector yaw pitch).y +
          (lookVector yaw pitch).z * (lookVector yaw pitch).z = 1 := hL
      nlinarith [sq_abs ((lookVector yaw pitch).y), abs_nonneg ((lookVector yaw pitch).y)]
    obtain ⟨h1, h2, h3, h4, h5, h6⟩ :=
      frame_orthonormal_aux (lookVector yaw pitch) ⟨0, 1, 0⟩ hL hc
    simp only [trueUpVector, rightVector, hupeq]
    rw [h1, h2, h3, h4, h5, h6]
    norm_num

/-! ## `parse_list_response`: regex search, comma split, per-token strip
and Python `float()` conversion -/

/-- The character class kept by `re.sub(r'[^\d\.\-+eE]', '', p)`: digits,
decimal point, signs and the exponent marker. -/
def isKept (c : Char) : Bool :=
  c.isDigit || c = '.' || c = '-' || c = '+' || c = 'e' || c = 'E'

/-- `re.search(r'\[([^\]]+)\]', response)`: scan left to right for a
literal `[`, take the (greedy, backtrack-free) maximal run of
non-`]` characters after it, and succeed if the run is non-empty and
immediately followed by `]`; otherwise resume the scan one position
later. Returns the captured group. -/
def findBracket : List Char → Option (List Char)
  | [] => none
  | c :: rest =>
    if c = '[' then
      match rest.takeWhile (fun ch => ch ≠ ']'), rest.dropWhile (fun ch => ch ≠ ']') with
      | _ :: _, ']' :: _ => some (rest.takeWhile (fun ch => ch ≠ ']'))
      | _, _ => findBracket rest
    else findBracket rest

/-- Python `data.split(',')`: always at least one token, empty tokens
preserved. -/
def splitComma : List Char → List (List Char)
  | [] => [[]]
  | c :: rest =>
    if c = ',' then [] :: splitComma rest
    else
      match splitComma rest with
      | [] => [[c]]
      | t :: ts => (c :: t) :: ts

/-- Numeric value of a decimal digit character. -/
def digitVal (c : Char) : ℕ := c.toNat - '0'.toNat

/-- Decimal value of a digit string. -/
def digitsToNat (ds : List Char) : ℕ :=
  ds.foldl (fun n c => 10 * n + digitVal c) 0

/-- An optional leading sign; returns whether the value is negated and
the remaining characters. -/
def parseSign : List Char → Bool × List Char
  | '-' :: rest => (true, rest)
  | '+' :: rest => (false, rest)
  | cs => (false, cs)

/-- The mantissa of a Python float literal: `digits [. digits]` or
`. digits`, with at least one digit overall. -/
def parseMantissa (cs : List Char) : Option (ℚ × List Char) :=
  let d1 := cs.takeWhile Char.isDigit
  let r1 := cs.dropWhile Char.isDigit
  match r1 with
  | '.' :: r2 =>
    let d2 := r2.takeWhile Char.isDigit
    let r3 := r2.dropWhile Char.isDigit
    if d1.isEmpty && d2.isEmpty then none
    else some ((digitsToNat d1 : ℚ) + (digitsToNat d2 : ℚ) / (10 : ℚ) ^ d2.length, r3)
  | _ => if d1.isEmpty then none else some ((digitsToNat d1 : ℚ), r1)

/-- The tail of an exponent: optional sign then mandatory digits. -/
def parseExpTail (cs : List Char) : Option (ℤ × List Char) :=
  let s := parseSign cs
  let d := s.2.takeWhile Char.isDigit
  let r := s.2.dropWhile Char.isDigit
  if d.isEmpty then none
  else some (if s.1 then -(digitsToNat d : ℤ) else (digitsToNat d : ℤ), r)

/-- An optional exponent part `e`/`E` sign? digits. -/
def parseExp (cs : List Char) : Option (ℤ × List Char) :=
  match cs with
  | 'e' :: rest => parseExpTail rest
  | 'E' :: rest => parseExpTail rest
  | _ => some (0, cs)

/-- Python `float(p)` on a string over the kept character class:
optional sign, mantissa, optional exponent, nothing left over. The value
is exact (modelled in `ℚ`). -/
def pyFloat (cs : List Char) : Option ℚ :=
  let s := parseSign cs
  match parseMantissa s.2 with
  | none => none
  | some m =>
    match parseExp m.2 with
    | none => none
    | some e =>
      if e.2.isEmpty then
        some ((if s.1 then -m.1 else m.1) * (10 : ℚ) ^ e.1)
      else none

/-- Strip every character other than digits, decimal point, sign and
exponent marker from a token. -/
def stripToken (cs : List Char) : List Char := cs.filter (fun c => isKept c)

/-- The list comprehension `[float(re.sub(...)) for p in parts]` guarded
by `try/except ValueError`: all tokens must convert, otherwise the whole
result is `None`. -/
def mapOpt (f : List Char → Option ℚ) : List (List Char) → Option (List ℚ)
  | [] => some []
  | p :: ps =>
    match f p with
    | none => none
    | some q =>
      match mapOpt f ps with
      | none => none
      | some qs => some (q :: qs)

/-- `parse_list_response(response)` from `image_processing.py`. -/
def parse_list_response (s : String) : Option (List ℚ) :=
  match findBracket s.data with
  | none => none
  | some data => mapOpt (fun p => pyFloat (stripToken p)) (splitComma data)

lemma mapOpt_eq_none_iff (f : List Char → Option ℚ) (l : List (List Char)) :
    mapOpt f l = none ↔ ∃ p ∈ l, f p = none := by
  induction l with
  | nil => simp [mapOpt]
  | cons p ps ih =>
    cases hp : f p with
    | none =>
      simp only [mapOpt, hp, List.mem_cons]
      constructor
      · intro _
        exact ⟨p, Or.inl rfl, hp⟩
      · intro _
        trivial
    | some q =>
      simp only [mapOpt, hp, List.mem_cons]
      cases hps : mapOpt f ps with
      | none =>
        constructor
        · intro _
          obtain ⟨p', hp', hfp'⟩ := ih.mp hps
          exact ⟨p', Or.inr hp', hfp'⟩
        · intro _
          trivial
      | some qs =>
        constructor
        · intro h
          exact absurd h (by simp)
        · rintro ⟨p', hp' | hp', hfp'⟩
          · rw [hp'] at hfp'
            rw [hfp'] at hp
            exact absurd hp (by simp)
          · have := ih.mpr ⟨p', hp', hfp'⟩
            rw [hps] at this
            exact absurd this (by simp)

lemma mapOpt_eq_some_of (f : List Char → Option ℚ) :
    ∀ (l : List (List Char)) (qs : List ℚ),
      l.map f = qs.map some → mapOpt f l = some qs := by
  intro l
  induction l with
  | nil =>
    intro qs h
    cases qs with
    | nil => rfl
    | cons q qs => exact absurd h (by simp)
  | cons p ps ih =>
    intro qs h
    cases qs with
    | nil => exact absurd h (by simp)
    | cons q qs =>
      simp only [List.map_cons, List.cons.injEq] at h
      obtain ⟨hq, hqs⟩ := h
      simp only [mapOpt, hq, ih qs hqs]

/-- C8: `parse_list_response` returns no result exactly when no bracketed
list is found or some comma-separated token, after stripping every
character other than digits, decimal point, sign and exponent marker,
fails numeric conversion; and when a bracketed list is found whose
stripped tokens all convert, it returns exactly the list of parsed
values. -/
theorem C8_parse_list_response (s : String) :
    (parse_list_response s = none ↔
      findBracket s.data = none ∨
      ∃ d, findBracket s.data = some d ∧
        ∃ p ∈ splitComma d, pyFloat (stripToken p) = none) ∧
    (∀ (d : List Char) (qs : List ℚ), findBracket s.data = some d →
      (splitComma d).map (fun p => pyFloat (stripToken p)) = qs.map some →
      parse_list_response s = some qs) := by
  constructor
  · cases hfb : findBracket s.data with
    | none => simp [parse_list_response, hfb]
    | some d0 =>
      simp only [parse_list_response, hfb]
      rw [mapOpt_eq_none_iff]
      constructor
      · intro h
        exact Or.inr ⟨d0, rfl, h⟩
      · rintro (h | ⟨d, hd, hp⟩)
        · exact absurd h (by simp)
        · rw [Option.some.injEq] at hd
          rwa [hd]
  · intro d qs hd hmap
    simp only [parse_list_response, hd]
    exact mapOpt_eq_some_of _ _ _ hmap

/-- C8 witness: a response holding the bracketed list `[a1, 2.5e1, -3]`
parses to `[1, 25, -3]` — the stray `a` next to the first number is
stripped before conversion. -/
theorem C8_parse_list_response_witness :
    parse_list_response "Pos has the following properties: [a1, 2.5e1, -3]" =
      some [1, 25, -3] :=
  (C8_parse_list_response "Pos has the following properties: [a1, 2.5e1, -3]").2
    "a1, 2.5e1, -3".data [1, 25, -3] rfl
    (by
      simp +decide [splitComma, stripToken, isKept, pyFloat, parseSign, parseMantissa,
        parseExp, parseExpTail, digitsToNat, digitVal]
      norm_num)

/-! ## The dispatch layer: `send_commands.py`

Connections are modelled by their creation index; `MCRcon.connect` is
modelled as succeeding (connection failures are an external concern
orthogonal to the claims below). The per-command remote call
`conn.command(cmd)` is modelled as a pure function `service` of the
command — the pooled connections are interchangeable. -/

/-- The connection pool held by `RCONConnectionPool`. -/
structure RCONConnectionPool where
  pool : List ℕ

/-- `RCONConnectionPool.__init__(host, password, port, pool_size)`: the
body runs `for _ in range(pool_size): conn = MCRcon(...); conn.connect();
self.pool.put(conn)` and contains no validation of `pool_size`
whatsoever, so construction never fails on its own account; the `Except`
result records the absence of any error path. -/
def RCONConnectionPool.init (pool_size : ℕ) : Except String RCONConnectionPool :=
  Except.ok ⟨List.range pool_size⟩

/-- `send_commands(commands, host, port, password, pool_size)`: build the
pool, then enter `ThreadPoolExecutor(max_workers=pool_size)`. The
executor's documented constructor validation (`concurrent.futures`)
raises `ValueError("max_workers must be greater than 0")` when
`max_workers ≤ 0`, before any command is dispatched; otherwise
`executor.map` collects one result per command in input order. -/
def send_commands (commands : List String) (service : String → String)
    (pool_size : ℕ) : Except String (List String) :=
  match RCONConnectionPool.init pool_size with
  | Except.error e => Except.error e
  | Except.ok _pool =>
    if pool_size = 0 then Except.error "max_workers must be greater than 0"
    else Except.ok (commands.map service)

/-- C9 counterexample: creating the pool with `pool_size = 0` is NOT
rejected: `RCONConnectionPool.__init__` performs no validation and
successfully establishes an empty pool. -/
theorem C9_counterexample :
    RCONConnectionPool.init 0 = Except.ok ⟨[]⟩ ∧
    (RCONConnectionPool.init 0).isOk = true :=
  ⟨rfl, rfl⟩

/-- C9 (amended): pool construction itself accepts size 0 and yields an
empty pool (no configuration check in the repository's code); the
subsequent `ThreadPoolExecutor(max_workers=0)` constructor validation —
standard-library behavior, outside this repository — is what makes
`send_commands` fail with a clear error before any dispatch. -/
theorem C9_pool_size_zero (commands : List String) (service : String → String) :
    RCONConnectionPool.init 0 = Except.ok ⟨[]⟩ ∧
    send_commands commands service 0 =
      Except.error "max_workers must be greater than 0" :=
  ⟨rfl, rfl⟩

/-! ## Order preservation of the concurrent dispatch (C10)

`executor.map(send_block_command, commands)` creates one task per
command and collects the results into input-order slots, whatever order
the worker threads complete in. The scheduling nondeterminism is
modelled by an arbitrary completion order: `execSchedule` fills result
slot `i` with the response to command `i` whenever task `i` completes. -/

/-- Run the tasks in completion order `order`: each completed task `i`
stores the service's response to command `i` in result slot `i`. -/
def execSchedule (commands : List String) (service : String → String) :
    List ℕ → List (Option String) → List (Option String)
  | [], slots => slots
  | i :: rest, slots =>
    execSchedule commands service rest (slots.set i (some (service (commands.getD i ""))))

/-- The result list collected by `executor.map`: slots start empty and
are filled as tasks complete. -/
def sendResults (commands : List String) (service : String → String)
    (order : List ℕ) : List (Option String) :=
  execSchedule commands service order (List.replicate commands.length none)

lemma execSchedule_length (commands : List String) (service : String → String) :
    ∀ (order : List ℕ) (slots : List (Option String)),
      (execSchedule commands service order slots).length = slots.length := by
  intro order
  induction order with
  | nil => intro slots; rfl
  | cons j rest ih =>
    intro slots
    show (execSchedule commands service rest _).length = _
    rw [ih, List.length_set]

lemma execSchedule_getElem (commands : List String) (service : String → String) :
    ∀ (order : List ℕ) (slots : List (Option String)) (i : ℕ) (hi : i < slots.length),
      (execSchedule commands service order slots).get
          ⟨i, by rw [execSchedule_length]; exact hi⟩ =
        if i ∈ order then some (service (commands.getD i ""))
        else slots.get ⟨i, hi⟩ := by
  intro order
  induction order with
  | nil =>
    intro slots i hi
    simp [execSchedule]
  | cons j rest ih =>
    intro slots i hi
    have hi' : i < (slots.set j (some (service (commands.getD j "")))).length := by
      rw [List.length_set]; exact hi
    have hfin : (execSchedule commands service (j :: rest) slots).get
        ⟨i, by rw [execSchedule_length]; exact hi⟩ =
        if i ∈ rest then some (service (commands.getD i ""))
        else (slots.set j (some (service (commands.getD j "")))).get ⟨i, hi'⟩ :=
      ih (slots.set j (some (service (commands.getD j "")))) i hi'
    rw [hfin]
    by_cases hmem : i ∈ rest
    · rw [if_pos hmem, if_pos (List.mem_cons.mpr (Or.inr hmem))]
    · rw [if_neg hmem]
      by_cases hij : i = j
      · subst hij
        rw [if_pos (List.mem_cons.mpr (Or.inl rfl))]
        simp
      · rw [if_neg (by simp [hij, hmem])]
        simp [List.getElem_set_ne (Ne.symm hij)]

/-- C10: for every completion order that runs each task exactly once
(any permutation of the task indices), the collected result list has
exactly one entry per input command and preserves input order: slot `i`
holds the service's response to the `i`-th command. -/
theorem C10_result_order (commands : List String) (service : String → String)
    (order : List ℕ) (hperm : order.Perm (List.range commands.length)) :
    sendResults commands service order =
      commands.map (fun cmd => some (service cmd)) := by
  apply List.ext_get
  · rw [sendResults, execSchedule_length, List.length_replicate, List.length_map]
  · intro i h1 h2
    have hi : i < commands.length := by
      rwa [List.length_map] at h2
    have hrep : i < (List.replicate commands.length (none : Option String)).length := by
      rw [List.length_replicate]; exact hi
    have hmem : i ∈ order := by
      rw [hperm.mem_iff, List.mem_range]
      exact hi
    have hval := execSchedule_getElem commands service order
      (List.replicate commands.length none) i hrep
    rw [if_pos hmem] at hval
    have hget : (sendResults commands service order).get ⟨i, h1⟩ =
        some (service (commands.getD i "")) := hval
    rw [hget, List.getD_eq_getElem commands "" hi]
    simp [List.getElem_map]

/-- C10 witness: three commands completed in the scrambled order
`[2, 0, 1]` still produce the in-order result list. -/
theorem C10_result_order_witness :
    sendResults ["a", "b", "c"] (fun cmd => cmd ++ "!") [2, 0, 1] =
      ["a", "b", "c"].map (fun cmd => some (cmd ++ "!")) :=
  C10_result_order ["a", "b", "c"] (fun cmd => cmd ++ "!") [2, 0, 1] (by decide)

end MCA
